import Mathlib

/-!
Shallow embedding of the Face-Recognition-and-Attendance-System core
(src/app.py, src/face_utils.py) and proofs about its behaviour.

Strings from the Python program are modelled as lists of characters
(`Str`), real-valued quantities (eye-aspect ratios, face distances) as
rationals, and the per-day attendance CSV file as a list of lines.
External library calls (dlib, face_recognition) are abstracted at their
outputs: a frame input carries the primary face's eye-aspect ratio (or
none when no face is detected) and, for each detected face, its bounding
box together with the vector of distances to the gallery encodings as
produced by face_recognition.face_distance.
-/

abbrev Str := List Char

namespace FaceAttend

/-! ### Python string primitives used by the attendance CSV code -/

/-- Characters removed by Python's `str.strip()`: exactly the
characters for which `str.isspace()` holds — U+0009..U+000D, the
information separators U+001C..U+001F, space, NEL U+0085, NBSP U+00A0,
Ogham space U+1680, the Unicode space separators U+2000..U+200A, the
line and paragraph separators U+2028/U+2029, narrow no-break space
U+202F, medium mathematical space U+205F, and ideographic space
U+3000. -/
def pyWs (c : Char) : Bool :=
  decide ((9 ≤ c.toNat ∧ c.toNat ≤ 13) ∨ (28 ≤ c.toNat ∧ c.toNat ≤ 32) ∨
    c.toNat = 133 ∨ c.toNat = 160 ∨ c.toNat = 5760 ∨
    (8192 ≤ c.toNat ∧ c.toNat ≤ 8202) ∨ c.toNat = 8232 ∨ c.toNat = 8233 ∨
    c.toNat = 8239 ∨ c.toNat = 8287 ∨ c.toNat = 12288)

/-- Python `str.strip()`: drop leading and trailing whitespace. -/
def pyStrip (l : Str) : Str :=
  ((l.dropWhile pyWs).reverse.dropWhile pyWs).reverse

/-- Python `str.split(',')`. -/
def splitComma : Str → List Str
  | [] => [[]]
  | c :: rest =>
    let r := splitComma rest
    if c = ',' then [] :: r
    else
      match r with
      | [] => [[c]]
      | p :: ps => (c :: p) :: ps

/-! ### Liveness detection (src/app.py lines 407-463, src/test.py) -/

/-- `EYE_AR_THRESH = 0.22` (src/app.py line 410). -/
def EYE_AR_THRESH : ℚ := mkRat 22 100

/-- `EYE_AR_CONSEC_FRAMES = 3` (src/app.py line 411). -/
def EYE_AR_CONSEC_FRAMES : ℕ := 3

/-- `blinks_required = 2` (src/app.py line 407). -/
def blinks_required : ℕ := 2

/-- One EAR sample through the blink logic of src/app.py lines 456-461.
The state is `(blink_counter, eye_closed_for_frames)`. -/
def blinkStep (t : ℚ) (k : ℕ) (s : ℕ × ℕ) (e : ℚ) : ℕ × ℕ :=
  if e < t then (s.1, s.2 + 1)
  else if k ≤ s.2 then (s.1 + 1, 0) else (s.1, 0)

/-- One frame through the blink logic: when no face is detected
(`if rects:` is false, src/app.py line 450) the counters are untouched. -/
def blinkStepOpt (t : ℚ) (k : ℕ) (s : ℕ × ℕ) : Option ℚ → ℕ × ℕ
  | none => s
  | some e => blinkStep t k s e

/-- Fold a sequence of per-frame average EAR values through `blinkStep`. -/
def blinkRun (t : ℚ) (k : ℕ) (s : ℕ × ℕ) (es : List ℚ) : ℕ × ℕ :=
  es.foldl (blinkStep t k) s

/-- The liveness part of one `generate_frames` loop iteration
(src/app.py lines 447-463): state is
`(challenge_passed, blink_counter, eye_closed_for_frames)`. Once the
challenge has passed the branch is skipped entirely. -/
def liveUpdate (st : Bool × ℕ × ℕ) (inp : Option ℚ) : Bool × ℕ × ℕ :=
  if st.1 then st
  else
    let s2 := blinkStepOpt EYE_AR_THRESH EYE_AR_CONSEC_FRAMES (st.2.1, st.2.2) inp
    (decide (blinks_required ≤ s2.1), s2.1, s2.2)

/-- End-to-end scenario A of the specification: the per-frame average
EAR sequence fed to the liveness challenge. -/
def scenarioA : List ℚ :=
  [mkRat 30 100, mkRat 18 100, mkRat 15 100, mkRat 19 100, mkRat 28 100,
   mkRat 17 100, mkRat 16 100, mkRat 20 100, mkRat 31 100]

/-! ### Attendance ledger (src/app.py lines 374-397, `mark_attendance`)

The current day's CSV file is modelled as a `DayStore`: whether the file
exists and its list of lines (each line without its trailing newline).
`mark_attendance` scans every line of the existing file — including the
header line — with `line.strip().split(',')` and refuses to append when
some line has exactly 4 parts whose first part equals the student name
and whose fourth part equals the subject. -/

/-- The header row written on first use of a day's file (src/app.py line 395). -/
def headerLine : Str := "Name,Timestamp,Taken By,Subject".toList

/-- The CSV line appended for one attendance record (src/app.py line
396): the four fields joined by commas. -/
def recordLine (name time fac subj : Str) : Str :=
  name ++ (',' :: (time ++ (',' :: (fac ++ (',' :: subj)))))

/-- The per-line duplicate test of src/app.py lines 388-390:
`parts = line.strip().split(',')`, then
`len(parts) == 4 and parts[0] == name and parts[3] == subject`. -/
def lineMatches (name subj : Str) (line : Str) : Bool :=
  let parts := splitComma (pyStrip line)
  parts.length == 4 && parts.getD 0 [] == name && parts.getD 3 [] == subj

/-- State of one day's attendance CSV file. -/
structure DayStore where
  fileExists : Bool
  lines : List Str
deriving DecidableEq

/-- The day's file before any write of that day. -/
def emptyStore : DayStore := ⟨false, []⟩

/-- `mark_attendance(name, faculty_name, subject)` (src/app.py lines
374-397) against the given day store; the timestamp string that
`datetime.now()` would produce is an explicit argument. Returns
`(True, updated store)` when a new record was appended and
`(False, unchanged store)` when the scan found the pair already marked.
The header is written when the file did not exist or was empty
(`not file_exists or f.tell() == 0`). -/
def mark_attendance (name time fac subj : Str) (st : DayStore) :
    Bool × DayStore :=
  if st.fileExists && st.lines.any (lineMatches name subj) then (false, st)
  else
    let base := if !st.fileExists || st.lines == [] then st.lines ++ [headerLine] else st.lines
    (true, ⟨true, base ++ [recordLine name time fac subj]⟩)

/-- One `mark_attendance` call: the identity name, the timestamp string,
the recorder (faculty) name, and the subject. -/
structure Call where
  name : Str
  time : Str
  fac : Str
  subj : Str
deriving DecidableEq

/-- Run a sequence of `mark_attendance` calls, returning the final store
and the list of results in call order. -/
def runMark : List Call → DayStore → DayStore × List Bool
  | [], st => (st, [])
  | c :: cs, st =>
    let r := mark_attendance c.name c.time c.fac c.subj st
    let rest := runMark cs r.2
    (rest.1, r.1 :: rest.2)

/-- Number of lines of the store that the code's own scan would read as a
record of `(name, subj)`. -/
def countMatches (name subj : Str) (st : DayStore) : ℕ :=
  (st.lines.filter (lineMatches name subj)).length

/-- Number of `Recorded` (true) results among the calls of a sequence
that carry the pair `(name, subj)`. -/
def pairTrueCount (calls : List Call) (rs : List Bool) (name subj : Str) : ℕ :=
  (((calls.zip rs).filter (fun p => p.1.name == name && p.1.subj == subj)).filter
    (fun p => p.2)).length

/-- Whether some call of the sequence carries the pair `(name, subj)`. -/
def hasPairCall (calls : List Call) (name subj : Str) : Bool :=
  calls.any (fun c => c.name == name && c.subj == subj)

/-- A CSV field that round-trips through the file: it contains no comma
(so `split(',')` keeps it whole) and no newline characters (so the
written record stays a single line of the file). -/
def GoodField (f : Str) : Prop := ',' ∉ f ∧ '\n' ∉ f ∧ '\r' ∉ f

/-- A call whose written line is read back as the same four fields: all
four fields are `GoodField`, the name has no leading whitespace and the
subject no trailing whitespace (otherwise `line.strip()` would alter
them). -/
def GoodCall (c : Call) : Prop :=
  GoodField c.name ∧ GoodField c.time ∧ GoodField c.fac ∧ GoodField c.subj ∧
  ¬ pyWs (c.name.headD ',') ∧ ¬ pyWs (c.subj.getLastD ',')

instance : DecidablePred GoodField := fun f => by
  unfold GoodField
  infer_instance

instance : DecidablePred GoodCall := fun c => by
  unfold GoodCall
  infer_instance

/-- A line a day store can contain: the header, or the record written by
some well-formed call. -/
def GoodLine (l : Str) : Prop :=
  l = headerLine ∨ ∃ c : Call, GoodCall c ∧ l = recordLine c.name c.time c.fac c.subj

/-- Reachable day stores: a non-existing file is empty, and every line
was written by `mark_attendance` (header or a well-formed record). -/
def InvStore (st : DayStore) : Prop :=
  (st.fileExists = false → st.lines = []) ∧ ∀ l ∈ st.lines, GoodLine l

/-! ### Identity matching (src/app.py lines 472-484)

A face encoding is a fixed-length numeric vector; `face_recognition`'s
`face_distance` (external library) returns the vector of distances from
the query encoding to every gallery encoding, and `compare_faces`
returns, entry-wise, whether that distance is at most the tolerance
(library default 0.6). We embed the distances vector as the abstraction
of the query encoding and model the library calls at that interface. -/

/-- One gallery encoding (opaque fixed-length vector). -/
abbrev Enc := List ℚ

/-- The name reported when no gallery entry is accepted
(`name = "Unknown"`, src/app.py line 473). -/
def unknownName : Str := "Unknown".toList

/-- The `face_recognition.compare_faces` default tolerance 0.6. -/
def matchTol : ℚ := mkRat 6 10

/-- `face_recognition.compare_faces` on a precomputed distance vector:
entry-wise `distance <= tolerance`. -/
def compare_faces (ds : List ℚ) (tol : ℚ) : List Bool :=
  ds.map (fun d => decide (d ≤ tol))

/-- Minimum of a distance list (0 for the empty list, never consulted
there). -/
def listMin : List ℚ → ℚ
  | [] => 0
  | [x] => x
  | x :: y :: r => min x (listMin (y :: r))

/-- `np.argmin`: index of the first occurrence of the minimum. -/
def np_argmin : List ℚ → ℕ
  | [] => 0
  | [_] => 0
  | x :: y :: r => if x ≤ listMin (y :: r) then 0 else np_argmin (y :: r) + 1

/-- The per-face matching logic of src/app.py lines 472-479, with every
Python operation that can raise (`np.argmin` on an empty array, list
indexing) made explicit in `Except`. `galEnc`/`galNames` are
`known_face_data["encodings"]`/`known_face_data["names"]`; `ds` is the
`face_distance` output for the query encoding. When the encodings list
is empty the guard `if known_face_data["encodings"]:` fails and the name
stays `"Unknown"` without touching the matcher. -/
def matchFaceE (galEnc : List Enc) (galNames : List Str) (ds : List ℚ) :
    Except Unit Str :=
  if galEnc = [] then .ok unknownName
  else
    let ms := compare_faces ds matchTol
    if ds = [] then .error () -- np.argmin raises on an empty array
    else
      let best := np_argmin ds
      match ms[best]? with
      | none => .error ()     -- IndexError on matches[best_match_index]
      | some m =>
        if m then
          match galNames[best]? with
          | none => .error () -- IndexError on names[best_match_index]
          | some n => .ok n
        else .ok unknownName

/-- Total version of the same logic (defaults in place of exceptions),
used inside the session-loop model; it agrees with `matchFaceE` on
well-formed inputs. -/
def matchFace (galEnc : List Enc) (galNames : List Str) (ds : List ℚ) : Str :=
  if galEnc = [] then unknownName
  else
    let best := np_argmin ds
    if ds.getD best 0 ≤ matchTol then galNames.getD best unknownName
    else unknownName

/-! ### Encoding gallery (src/face_utils.py)

`known_faces.pkl` holds `{"encodings": [...], "names": [...]}`. The
external `face_recognition.face_encodings` call on a reference image is
abstracted as an `Option Enc`: `some e` when a face was found in the
image (the first face's encoding), `none` when the image is missing or
contains no detectable face (all the early-return paths of
`add_user_encoding`). -/

/-- The persisted gallery `{"encodings": ..., "names": ...}`. -/
structure Gallery where
  encodings : List Enc
  names : List Str
deriving DecidableEq

/-- `add_user_encoding(user)` (src/face_utils.py lines 25-51): appends
the first encoding found in the user's reference image together with the
user's name; a missing image or an image with no detectable face leaves
the gallery untouched. -/
def add_user_encoding (username : Str) (enc : Option Enc) (g : Gallery) : Gallery :=
  match enc with
  | none => g
  | some e => { encodings := g.encodings ++ [e], names := g.names ++ [username] }

/-- `remove_user_encoding(username)` (src/face_utils.py lines 53-81):
zip the two lists, drop every pair whose name equals `username`, and
rebuild both lists when the zip got shorter; otherwise the file is left
unchanged. (The source's empty/non-empty branches both amount to the
two projections of the filtered pair list.) -/
def remove_user_encoding (username : Str) (g : Gallery) : Gallery :=
  let filtered := (g.names.zip g.encodings).filter (fun p => !(p.1 == username))
  if filtered.length < g.names.length then
    { names := filtered.map Prod.fst, encodings := filtered.map Prod.snd }
  else g

/-- `generate_and_save_encodings()` (src/face_utils.py lines 83-115):
rebuild the gallery from scratch from the users' reference images,
skipping every user whose image is missing, unreadable or has no
detectable face (`none`). -/
def generate_and_save_encodings (users : List (Str × Option Enc)) : Gallery :=
  users.foldl
    (fun g p =>
      match p.2 with
      | some e => { encodings := g.encodings ++ [e], names := g.names ++ [p.1] }
      | none => g)
    ⟨[], []⟩

/-! ### Frame annotation (src/app.py lines 85-117, `_draw_on_frame`) -/

/-- A face bounding box in `(top, right, bottom, left)` order as
returned by `face_recognition.face_locations`. -/
abbrev Box := ℤ × ℤ × ℤ × ℤ

/-- An OpenCV BGR colour triple. -/
abbrev Color := ℕ × ℕ × ℕ

/-- The rectangle actually drawn by `_draw_on_frame` for one face
(src/app.py lines 89-104): scale the detection-space coordinates by 4,
pad by `(right - left) // 8` (Python floor division), clamp top/left at
0 and right/bottom at the frame width/height — with an extra 10 pixels
added at the bottom for the name tag. -/
def draw_box (frame_h frame_w : ℤ) (b : Box) : Box :=
  let top := b.1 * 4
  let right := b.2.1 * 4
  let bottom := b.2.2.1 * 4
  let left := b.2.2.2 * 4
  let padding := Int.fdiv (right - left) 8
  (max 0 (top - padding), min frame_w (right + padding),
   min frame_h (bottom + padding + 10), max 0 (left - padding))

/-- The box colour of src/app.py lines 107-109: red for `"Unknown"`,
otherwise orange when the name is in `marked_this_session`, else green. -/
def box_color (name : Str) (marked : List Str) : Color :=
  if name ≠ unknownName then
    (if name ∈ marked then (0, 165, 255) else (0, 255, 0))
  else (0, 0, 255)

/-- The rendered box exactly as the specification's words describe it:
upscaled by the inverse of the downscale factor, enlarged on all sides
by a padding of 1/8 of the box width, clamped to the frame bounds. -/
def specBox (frame_h frame_w : ℤ) (b : Box) : Box :=
  let top := b.1 * 4
  let right := b.2.1 * 4
  let bottom := b.2.2.1 * 4
  let left := b.2.2.2 * 4
  let padding := Int.fdiv (right - left) 8
  (max 0 (top - padding), min frame_w (right + padding),
   min frame_h (bottom + padding), max 0 (left - padding))

/-- The amended rendered box: as `specBox`, plus the extra 10 pixels the
code adds below the box for the name tag. -/
def specBoxAmended (frame_h frame_w : ℤ) (b : Box) : Box :=
  let s := specBox frame_h frame_w b
  let padding := Int.fdiv (b.2.1 * 4 - b.2.2.2 * 4) 8
  (s.1, s.2.1, min frame_h (b.2.2.1 * 4 + padding + 10), s.2.2.2)

/-- The specification's colour coding: red = unrecognized, green =
recognized and not yet marked, amber = recognized and already marked. -/
def specColor (name : Str) (marked : List Str) : Color :=
  if name = unknownName then (0, 0, 255)
  else if name ∈ marked then (0, 165, 255)
  else (0, 255, 0)

/-! ### The session loop (src/app.py lines 400-502, `generate_frames`)

One loop iteration is `sessStep`. The camera and the detector/predictor
libraries are abstracted at their outputs: a `FrameInput` carries the
primary detected face's average EAR for the liveness branch (`none`
when `detector` finds no face), the list of detected faces for the
identification branch — each face as its bounding box together with
its `face_distance` vector against the gallery — and the timestamp
string `datetime.now()` would produce during this iteration. -/

/-- Fixed data of one session: the recorder's name, the subject, the
eligible student names, and the loaded `known_face_data` gallery. -/
structure SessCfg where
  faculty : Str
  subject : Str
  students : List Str
  galEnc : List Enc
  galNames : List Str

/-- The abstracted sensor data for one camera frame. -/
structure FrameInput where
  ear : Option ℚ
  faces : List (Box × List ℚ)
  time : Str

/-- What one loop iteration draws and emits: the raw face locations and
names handed to `_draw_on_frame`, and which status overlay was drawn
(0 = blink instruction, 1 = "Marked!", 2 = "Already Marked",
3 = "Face Not Recognized", 4 = identifying with no face present). -/
structure FrameOut where
  locs : List Box
  names : List Str
  overlay : ℕ
deriving DecidableEq

/-- Mutable state of the `generate_frames` loop across iterations. -/
structure SessState where
  challenge_passed : Bool
  recognition_done : Bool
  blink_counter : ℕ
  eye_closed_for_frames : ℕ
  marked : List Str
  store : DayStore
  last : Option FrameOut

/-- The body of the `for face_encoding in face_encodings:` loop
(src/app.py lines 472-484). The accumulator carries the `face_names`
built so far, the day store, the `marked_students_for_subject` set and
the `marked_a_student_this_cycle` flag. -/
def processFace (cfg : SessCfg) (time : Str)
    (acc : List Str × DayStore × List Str × Bool) (face : Box × List ℚ) :
    List Str × DayStore × List Str × Bool :=
  let names := acc.1
  let store := acc.2.1
  let marked := acc.2.2.1
  let cycle := acc.2.2.2
  if cfg.galEnc ≠ [] then
    let ds := face.2
    let best := np_argmin ds
    if ds.getD best 0 ≤ matchTol then
      let name := cfg.galNames.getD best unknownName
      if name ∈ cfg.students ∧ name ∉ marked then
        let r := mark_attendance name time cfg.faculty cfg.subject store
        if r.1 then
          (names ++ [name], r.2, (if name ∈ marked then marked else marked ++ [name]), true)
        else (names ++ [name], r.2, marked, cycle)
      else (names ++ [name], store, marked, cycle)
    else (names ++ [unknownName], store, marked, cycle)
  else (names ++ [unknownName], store, marked, cycle)

/-- One iteration of the `while True:` loop of `generate_frames`
(src/app.py lines 433-502), returning the new state and the emitted
frame. When `recognition_done` is set and a last frame is cached, the
loop re-emits the cached frame without reading the camera. -/
def sessStep (cfg : SessCfg) (st : SessState) (inp : FrameInput) :
    SessState × FrameOut :=
  if st.recognition_done && st.last.isSome then
    (st, st.last.getD ⟨[], [], 4⟩)
  else if !st.challenge_passed then
    let s2 := blinkStepOpt EYE_AR_THRESH EYE_AR_CONSEC_FRAMES
      (st.blink_counter, st.eye_closed_for_frames) inp.ear
    let out : FrameOut := ⟨[], [], 0⟩
    ({ st with
        blink_counter := s2.1
        eye_closed_for_frames := s2.2
        challenge_passed := decide (blinks_required ≤ s2.1)
        last := if st.recognition_done then some out else st.last }, out)
  else
    let r := inp.faces.foldl (processFace cfg inp.time) ([], st.store, st.marked, false)
    let names := r.1
    let store' := r.2.1
    let marked' := r.2.2.1
    let cycle := r.2.2.2
    let locs := inp.faces.map Prod.fst
    let isKnown := names.any (fun n => !(n == unknownName))
    let done := cycle || (!locs.isEmpty && isKnown)
    let overlay : ℕ :=
      if cycle then 1
      else if !locs.isEmpty && isKnown then 2
      else if !locs.isEmpty && !isKnown then 3
      else 4
    let out : FrameOut := ⟨locs, names, overlay⟩
    ({ st with
        recognition_done := st.recognition_done || done
        marked := marked'
        store := store'
        last := if st.recognition_done || done then some out else st.last }, out)

/-- Run the loop over a list of frames, returning the final state and
the emitted frames. -/
def runSess (cfg : SessCfg) (st : SessState) : List FrameInput → SessState × List FrameOut
  | [] => (st, [])
  | inp :: rest =>
    let r := sessStep cfg st inp
    let rs := runSess cfg r.1 rest
    (rs.1, r.2 :: rs.2)

/-- The `marked_students_for_subject` set preloaded from the day's file
(src/app.py lines 416-424): every first field of a 4-part line past the
header whose fourth field is the subject. -/
def initMarked (subject : Str) (st : DayStore) : List Str :=
  if st.fileExists then
    (st.lines.drop 1).filterMap (fun l =>
      let ps := splitComma (pyStrip l)
      if ps.length == 4 && ps.getD 3 [] == subject then some (ps.getD 0 []) else none)
  else []

/-- The state of `generate_frames` just before its `while True:` loop
(src/app.py lines 403-424). -/
def initSession (subject : Str) (store : DayStore) : SessState :=
  { challenge_passed := false
    recognition_done := false
    blink_counter := 0
    eye_closed_for_frames := 0
    marked := initMarked subject store
    store := store
    last := none }

/-- A concrete session: two blinks (closed 0.1 / open 0.3 EAR frames)
followed by two identification frames whose detected boxes differ, with
an empty gallery so the session keeps identifying. -/
def framesCex : List FrameInput :=
  [⟨some (mkRat 1 10), [], []⟩, ⟨some (mkRat 1 10), [], []⟩,
   ⟨some (mkRat 1 10), [], []⟩, ⟨some (mkRat 3 10), [], []⟩,
   ⟨some (mkRat 1 10), [], []⟩, ⟨some (mkRat 1 10), [], []⟩,
   ⟨some (mkRat 1 10), [], []⟩, ⟨some (mkRat 3 10), [], []⟩,
   ⟨none, [((1, 2, 3, 4), [])], []⟩,
   ⟨none, [((5, 6, 7, 8), [])], []⟩]

/-- The frames `generate_frames` emits on the concrete session above. -/
def runCex : SessState × List FrameOut :=
  runSess ⟨"fac".toList, "Math".toList, [], [], []⟩
    (initSession "Math".toList emptyStore) framesCex

/-! ## Theorems -/

/-- C7: if the encoding gallery has zero entries, matching a detected
face always yields Unknown and never raises an exception, for every
query (distance vector of the query encoding against the gallery). -/
theorem empty_gallery_unknown (galNames : List Str) (ds : List ℚ) :
    matchFaceE [] galNames ds = Except.ok unknownName := rfl

/-- C3 counterexample: after a closed run of length 2, a frame with no
detected face leaves `eye_closed_for_frames` at 2 — it is NOT reset to 0
as the claim states; moreover the preserved run can later be completed
into a blink across the no-face gap ([closed, closed, no-face, closed,
open] yields one blink), which the claim's treat-as-open semantics would
forbid. -/
theorem noface_claim_counterexample :
    (([some (mkRat 18 100), some (mkRat 15 100), none].foldl
        (blinkStepOpt EYE_AR_THRESH EYE_AR_CONSEC_FRAMES) (0, 0)).2 ≠ 0) ∧
    ([some (mkRat 18 100), some (mkRat 15 100), none, some (mkRat 16 100),
        some (mkRat 30 100)].foldl
        (blinkStepOpt EYE_AR_THRESH EYE_AR_CONSEC_FRAMES) (0, 0)).1 = 1 := by
  decide

/-- C3 amended: during the liveness challenge a frame in which no face
is detected leaves the blink state entirely unchanged: deleting it from
any position of the EAR stream does not change the outcome, so it never
extends a closed run, never resets it, and never by itself counts as a
blink. -/
theorem noface_skips_frame (t : ℚ) (k : ℕ) (s : ℕ × ℕ)
    (xs ys : List (Option ℚ)) :
    (xs ++ none :: ys).foldl (blinkStepOpt t k) s
      = (xs ++ ys).foldl (blinkStepOpt t k) s := by
  simp [List.foldl_append, blinkStepOpt]

/-- C9 counterexample: for the face box (10, 30, 20, 10) in a 480x640
frame the code draws bottom 100 while the claimed
pad-all-sides-then-clamp box has bottom 90: the code adds 10 extra
pixels below the box. -/
theorem draw_claim_counterexample :
    draw_box 480 640 (10, 30, 20, 10) ≠ specBox 480 640 (10, 30, 20, 10) := by
  decide

/-- C9 amended: the rendered box is the detection-space box upscaled by
4, padded on all sides by `(width) // 8`, with 10 extra pixels at the
bottom for the name tag, top/left clamped at 0 and right/bottom at the
frame width/height; colours are red for unknown, amber for marked,
green otherwise. -/
theorem draw_box_amended_spec (h w : ℤ) (b : Box) (name : Str)
    (marked : List Str) :
    draw_box h w b = specBoxAmended h w b ∧
    box_color name marked = specColor name marked := by
  constructor
  · simp [draw_box, specBoxAmended, specBox]
  · by_cases h1 : name = unknownName <;> by_cases h2 : name ∈ marked <;>
      simp [box_color, specColor, h1, h2]

/-- Helper: `remove_user_encoding` keeps the two gallery lists the same
length when they started out the same length. -/
lemma remove_preserves_len (u : Str) (g : Gallery)
    (h : g.names.length = g.encodings.length) :
    (remove_user_encoding u g).names.length
      = (remove_user_encoding u g).encodings.length := by
  unfold remove_user_encoding
  dsimp only
  split
  · simp
  · exact h

/-- Helper: rebuilding the gallery from scratch yields lists of equal
length, whatever gallery the fold starts from. -/
lemma gen_fold_len (users : List (Str × Option Enc)) :
    ∀ g : Gallery, g.names.length = g.encodings.length →
      (users.foldl
        (fun g p =>
          match p.2 with
          | some e => { encodings := g.encodings ++ [e], names := g.names ++ [p.1] }
          | none => g)
        g).names.length
      = (users.foldl
        (fun g p =>
          match p.2 with
          | some e => { encodings := g.encodings ++ [e], names := g.names ++ [p.1] }
          | none => g)
        g).encodings.length := by
  induction users with
  | nil => intro g h; simpa using h
  | cons p rest ih =>
    intro g h
    cases hp : p.2 with
    | none => simpa [List.foldl_cons, hp] using ih g h
    | some e =>
      simp only [List.foldl_cons, hp]
      exact ih _ (by simp [h])

/-- C10: every gallery-mutating operation preserves the invariant that
the persisted names list and encodings list have equal length. -/
theorem gallery_length_invariant (g : Gallery) (u : Str) (oe : Option Enc)
    (users : List (Str × Option Enc))
    (h : g.names.length = g.encodings.length) :
    ((add_user_encoding u oe g).names.length
      = (add_user_encoding u oe g).encodings.length) ∧
    ((remove_user_encoding u g).names.length
      = (remove_user_encoding u g).encodings.length) ∧
    ((generate_and_save_encodings users).names.length
      = (generate_and_save_encodings users).encodings.length) := by
  refine ⟨?_, remove_preserves_len u g h, gen_fold_len users ⟨[], []⟩ rfl⟩
  cases oe with
  | none => simpa [add_user_encoding] using h
  | some e => simp [add_user_encoding, h]

/-- C10 witness: the invariant theorem applied to a concrete well-formed
gallery, user and roster. -/
theorem gallery_length_invariant_witness :
    ((add_user_encoding "bob".toList (some [mkRat 1 2])
        ⟨[[mkRat 1 3]], ["alice".toList]⟩).names.length
      = (add_user_encoding "bob".toList (some [mkRat 1 2])
        ⟨[[mkRat 1 3]], ["alice".toList]⟩).encodings.length) ∧
    ((remove_user_encoding "bob".toList ⟨[[mkRat 1 3]], ["alice".toList]⟩).names.length
      = (remove_user_encoding "bob".toList
        ⟨[[mkRat 1 3]], ["alice".toList]⟩).encodings.length) ∧
    ((generate_and_save_encodings [("alice".toList, some [mkRat 1 3]),
        ("carl".toList, none)]).names.length
      = (generate_and_save_encodings [("alice".toList, some [mkRat 1 3]),
        ("carl".toList, none)]).encodings.length) :=
  gallery_length_invariant ⟨[[mkRat 1 3]], ["alice".toList]⟩ "bob".toList
    (some [mkRat 1 2]) [("alice".toList, some [mkRat 1 3]), ("carl".toList, none)] rfl

/-- Helper: one loop iteration never clears `challenge_passed`. -/
lemma sessStep_passed (cfg : SessCfg) (st : SessState) (inp : FrameInput)
    (h : st.challenge_passed = true) :
    (sessStep cfg st inp).1.challenge_passed = true := by
  unfold sessStep
  by_cases h1 : st.recognition_done && st.last.isSome <;> simp [h1, h]

/-- C5: `challenge_passed`, once set, stays set for the remainder of the
session — the liveness status never reverts from PASSED to CHALLENGING
under any sequence of frames. -/
theorem challenge_passed_sticky (cfg : SessCfg) (st : SessState)
    (inps : List FrameInput) (h : st.challenge_passed = true) :
    (runSess cfg st inps).1.challenge_passed = true := by
  induction inps generalizing st with
  | nil => simpa [runSess] using h
  | cons i rest ih =>
    simp only [runSess]
    exact ih _ (sessStep_passed cfg st i h)

/-- C5 witness: stickiness at a concrete passed state and frame list. -/
theorem challenge_passed_sticky_witness :
    (runSess ⟨"fac".toList, "Math".toList, [], [], []⟩
      ⟨true, false, 2, 0, [], emptyStore, none⟩
      [⟨none, [], []⟩, ⟨some (mkRat 1 10), [], []⟩]).1.challenge_passed = true :=
  challenge_passed_sticky _ _ _ rfl

/-- Helper: fold over a concatenation splits. -/
lemma blinkRun_append (t : ℚ) (k : ℕ) (s : ℕ × ℕ) (xs ys : List ℚ) :
    blinkRun t k s (xs ++ ys) = blinkRun t k (blinkRun t k s xs) ys := by
  simp [blinkRun, List.foldl_append]

/-- Helper: a run of below-threshold samples only grows
`eye_closed_for_frames`, never the blink count. -/
lemma blinkRun_closed (t : ℚ) (k : ℕ) (c : List ℚ) (hc : ∀ e ∈ c, e < t) :
    ∀ b r, blinkRun t k (b, r) c = (b, r + c.length) := by
  induction c with
  | nil => intro b r; simp [blinkRun]
  | cons e es ih =>
    intro b r
    have he : e < t := hc e (by simp)
    have hstep : blinkStep t k (b, r) e = (b, r + 1) := by simp [blinkStep, he]
    rw [blinkRun, List.foldl_cons, hstep]
    have := ih (fun x hx => hc x (by simp [hx])) b (r + 1)
    rw [blinkRun] at this
    rw [this]
    simp [Nat.add_assoc, Nat.add_comm 1]

/-- Helper: with the closed-run counter at 0, at-or-above-threshold
samples change nothing (requires the consecutive-frames minimum to be
at least 1). -/
lemma blinkRun_open_zero (t : ℚ) (k : ℕ) (hk : 1 ≤ k) (o : List ℚ)
    (ho : ∀ e ∈ o, t ≤ e) : ∀ b, blinkRun t k (b, 0) o = (b, 0) := by
  induction o with
  | nil => intro b; simp [blinkRun]
  | cons e es ih =>
    intro b
    have he : ¬ e < t := not_lt.mpr (ho e (by simp))
    have hk0 : ¬ k ≤ 0 := by omega
    have hstep : blinkStep t k (b, 0) e = (b, 0) := by simp [blinkStep, he, hk0]
    rw [blinkRun, List.foldl_cons, hstep]
    exact ih (fun x hx => ho x (by simp [hx])) b

/-- Helper: a nonempty run of at-or-above-threshold samples increments
the blink count exactly when the preceding closed run reached the
consecutive-frames minimum, and resets the closed-run counter. -/
lemma blinkRun_open (t : ℚ) (k : ℕ) (hk : 1 ≤ k) (o : List ℚ)
    (ho : ∀ e ∈ o, t ≤ e) (hne : o ≠ []) :
    ∀ b r, blinkRun t k (b, r) o = (b + (if k ≤ r then 1 else 0), 0) := by
  cases o with
  | nil => exact absurd rfl hne
  | cons e es =>
    intro b r
    have he : ¬ e < t := not_lt.mpr (ho e (by simp))
    have hstep : blinkStep t k (b, r) e = (b + (if k ≤ r then 1 else 0), 0) := by
      by_cases hr : k ≤ r <;> simp [blinkStep, he, hr]
    rw [blinkRun, List.foldl_cons, hstep]
    exact blinkRun_open_zero t k hk es (fun x hx => ho x (by simp [hx])) _

/-- Helper: folding the alternating closed/open blocks counts exactly
the closed blocks that reached the minimum length. -/
lemma blinkRun_blocks (t : ℚ) (k : ℕ) (hk : 1 ≤ k) :
    ∀ blocks : List (List ℚ × List ℚ),
      (∀ p ∈ blocks, (∀ e ∈ p.1, e < t) ∧ (∀ e ∈ p.2, t ≤ e) ∧ p.2 ≠ []) →
      ∀ b, blinkRun t k (b, 0) ((blocks.map (fun p => p.1 ++ p.2)).flatten)
        = (b + (blocks.filter (fun p => decide (k ≤ p.1.length))).length, 0) := by
  intro blocks
  induction blocks with
  | nil => intro _ b; simp [blinkRun]
  | cons p rest ih =>
    intro hb b
    obtain ⟨h1, h2, h3⟩ := hb p (by simp)
    rw [List.map_cons, List.flatten_cons, List.append_assoc, blinkRun_append,
      blinkRun_append, blinkRun_closed t k p.1 h1 b 0,
      blinkRun_open t k hk p.2 h2 h3 b (0 + p.1.length)]
    rw [ih (fun q hq => hb q (by simp [hq])) (b + (if k ≤ 0 + p.1.length then 1 else 0))]
    by_cases hlen : k ≤ p.1.length <;>
      simp [List.filter_cons, hlen, Nat.add_assoc, Nat.add_comm 1]

/-- C2: for every EAR stream presented as an initial open stretch, then
alternating maximal closed runs each terminated by a nonempty open
stretch, then a trailing closed run, the final blink count is exactly
the number of closed runs of length at least the consecutive-frames
minimum — runs shorter than the minimum never count, and the trailing
unterminated run never counts. Moreover the specification's scenario A
stream `[0.30, 0.18, 0.15, 0.19, 0.28, 0.17, 0.16, 0.20, 0.31]` drives
the liveness state to 2 blinks and status PASSED with
`blinks_required = 2`. -/
theorem blink_count_spec (t : ℚ) (k : ℕ) (hk : 1 ≤ k)
    (o0 cEnd : List ℚ) (blocks : List (List ℚ × List ℚ))
    (ho0 : ∀ e ∈ o0, t ≤ e)
    (hb : ∀ p ∈ blocks, (∀ e ∈ p.1, e < t) ∧ (∀ e ∈ p.2, t ≤ e) ∧ p.2 ≠ [])
    (hend : ∀ e ∈ cEnd, e < t) :
    ((blinkRun t k (0, 0)
        (o0 ++ (blocks.map (fun p => p.1 ++ p.2)).flatten ++ cEnd)).1
      = (blocks.filter (fun p => decide (k ≤ p.1.length))).length) ∧
    (scenarioA.map some).foldl liveUpdate (false, 0, 0) = (true, 2, 0) := by
  constructor
  · rw [blinkRun_append, blinkRun_append, blinkRun_open_zero t k hk o0 ho0 0,
      blinkRun_blocks t k hk blocks hb 0,
      blinkRun_closed t k cEnd hend _ 0]
    simp
  · decide

/-- C2 witness: the run-counting theorem applied to scenario A's block
decomposition (two length-3 closed runs, each followed by an open
sample). -/
theorem blink_count_spec_witness :
    ((blinkRun EYE_AR_THRESH EYE_AR_CONSEC_FRAMES (0, 0)
        ([mkRat 30 100] ++
          (([([mkRat 18 100, mkRat 15 100, mkRat 19 100], [mkRat 28 100]),
             ([mkRat 17 100, mkRat 16 100, mkRat 20 100], [mkRat 31 100])].map
            (fun p => p.1 ++ p.2)).flatten) ++ [])).1
      = ([([mkRat 18 100, mkRat 15 100, mkRat 19 100], [mkRat 28 100]),
          ([mkRat 17 100, mkRat 16 100, mkRat 20 100], [mkRat 31 100])].filter
          (fun p => decide (EYE_AR_CONSEC_FRAMES ≤ p.1.length))).length) ∧
    (scenarioA.map some).foldl liveUpdate (false, 0, 0) = (true, 2, 0) :=
  blink_count_spec EYE_AR_THRESH EYE_AR_CONSEC_FRAMES (by decide) _ _ _
    (by decide) (by decide) (by decide)

/-- Helper: `listMin` really is a lower bound of the list. -/
lemma listMin_le (l : List ℚ) : ∀ j < l.length, listMin l ≤ l.getD j 0 := by
  induction l with
  | nil => intro j hj; simp at hj
  | cons x xs ih =>
    intro j hj
    cases xs with
    | nil =>
      have : j = 0 := by simpa using hj
      subst this
      simp [listMin]
    | cons y r =>
      cases j with
      | zero =>
        show listMin (x :: y :: r) ≤ x
        exact min_le_left _ _
      | succ j' =>
        have hj' : j' < (y :: r).length := by simpa using hj
        calc listMin (x :: y :: r) ≤ listMin (y :: r) := min_le_right _ _
          _ ≤ (y :: r).getD j' 0 := ih j' hj'
          _ = (x :: y :: r).getD (j' + 1) 0 := by simp

/-- Helper: `np_argmin` is a valid index for a nonempty list. -/
lemma np_argmin_lt_length (l : List ℚ) (h : l ≠ []) : np_argmin l < l.length := by
  induction l with
  | nil => exact absurd rfl h
  | cons x xs ih =>
    cases xs with
    | nil => simp [np_argmin]
    | cons y r =>
      by_cases hx : x ≤ listMin (y :: r)
      · simp [np_argmin, hx]
      · have := ih (by simp)
        simp only [np_argmin, hx, if_false]
        simpa using Nat.succ_lt_succ this

/-- Helper: the entry at `np_argmin` is the minimum of the list. -/
lemma getD_np_argmin (l : List ℚ) (h : l ≠ []) :
    l.getD (np_argmin l) 0 = listMin l := by
  induction l with
  | nil => exact absurd rfl h
  | cons x xs ih =>
    cases xs with
    | nil => simp [np_argmin, listMin]
    | cons y r =>
      by_cases hx : x ≤ listMin (y :: r)
      · simp [np_argmin, hx, listMin, min_eq_left hx]
      · have hmin : listMin (x :: y :: r) = listMin (y :: r) := by
          simp [listMin, min_eq_right (le_of_not_le hx)]
        simp only [np_argmin, hx, if_false, hmin]
        simpa using ih (by simp)

/-- Helper: `np_argmin` is the first index attaining the minimum. -/
lemma np_argmin_first (l : List ℚ) : ∀ j < l.length,
    l.getD j 0 = listMin l → np_argmin l ≤ j := by
  induction l with
  | nil => intro j hj; simp at hj
  | cons x xs ih =>
    intro j hj hmin
    cases xs with
    | nil => simp [np_argmin]
    | cons y r =>
      by_cases hx : x ≤ listMin (y :: r)
      · simp [np_argmin, hx]
      · have hmin2 : listMin (x :: y :: r) = listMin (y :: r) := by
          simp [listMin, min_eq_right (le_of_not_le hx)]
        cases j with
        | zero =>
          exfalso
          exact hx (le_of_eq (by simpa [hmin2] using hmin))
        | succ j' =>
          have hj' : j' < (y :: r).length := by simpa using hj
          have : (y :: r).getD j' 0 = listMin (y :: r) := by
            simpa [hmin2] using hmin
          have := ih j' hj' this
          simp only [np_argmin, hx, if_false]
          omega

/-- C4: the matcher raises no exception on a well-formed nonempty
gallery, never reports a name whose distance exceeds the acceptance
tolerance 0.6, selects the entry of minimum distance, and on ties
selects the first-encountered gallery entry. (Determinism is immediate:
`matchFaceE` is a function of the gallery snapshot and query.) -/
theorem matcher_threshold_min_first (galEnc : List Enc) (galNames : List Str)
    (ds : List ℚ) (hne : galEnc ≠ []) (hlen : ds.length = galEnc.length)
    (hnames : galNames.length = galEnc.length) :
    ∃ r, matchFaceE galEnc galNames ds = Except.ok r ∧
      (r ≠ unknownName → ds.getD (np_argmin ds) 0 ≤ matchTol ∧
        r = galNames.getD (np_argmin ds) unknownName) ∧
      (∀ j < ds.length, ds.getD (np_argmin ds) 0 ≤ ds.getD j 0) ∧
      (∀ j < ds.length, ds.getD j 0 = ds.getD (np_argmin ds) 0 →
        np_argmin ds ≤ j) := by
  have hds : ds ≠ [] := by
    intro hnil
    rw [hnil] at hlen
    exact hne (List.eq_nil_of_length_eq_zero hlen.symm)
  have hbest : np_argmin ds < ds.length := np_argmin_lt_length ds hds
  have hbestn : np_argmin ds < galNames.length := by omega
  have hmin := getD_np_argmin ds hds
  have hms : (compare_faces ds matchTol)[np_argmin ds]?
      = some (decide (ds.getD (np_argmin ds) 0 ≤ matchTol)) := by
    rw [compare_faces, List.getElem?_map, List.getElem?_eq_getElem hbest]
    simp [List.getD_eq_getElem?_getD, List.getElem?_eq_getElem hbest]
  have hnm : galNames[np_argmin ds]?
      = some (galNames.getD (np_argmin ds) unknownName) := by
    rw [List.getElem?_eq_getElem hbestn]
    simp [List.getD_eq_getElem?_getD, List.getElem?_eq_getElem hbestn]
  by_cases hacc : ds.getD (np_argmin ds) 0 ≤ matchTol
  · refine ⟨galNames.getD (np_argmin ds) unknownName, ?_, ?_, ?_, ?_⟩
    · unfold matchFaceE
      rw [if_neg hne]
      dsimp only
      rw [if_neg hds, hms, hnm]
      simp only [decide_eq_true hacc]
      rfl
    · exact fun _ => ⟨hacc, rfl⟩
    · intro j hj
      rw [hmin]
      exact listMin_le ds j hj
    · intro j hj hj2
      rw [hmin] at hj2
      exact np_argmin_first ds j hj hj2
  · refine ⟨unknownName, ?_, ?_, ?_, ?_⟩
    · unfold matchFaceE
      rw [if_neg hne]
      dsimp only
      rw [if_neg hds, hms]
      simp only [decide_eq_false hacc]
      rfl
    · intro hco; exact absurd rfl hco
    · intro j hj
      rw [hmin]
      exact listMin_le ds j hj
    · intro j hj hj2
      rw [hmin] at hj2
      exact np_argmin_first ds j hj hj2

/-- C4 witness: the matcher theorem at the specification's scenario C
(one entry at distance 0.9, tolerance 0.6). -/
theorem matcher_threshold_min_first_witness :
    ∃ r, matchFaceE [[mkRat 9 10]] ["alice".toList] [mkRat 9 10] = Except.ok r ∧
      (r ≠ unknownName → [mkRat 9 10].getD (np_argmin [mkRat 9 10]) 0 ≤ matchTol ∧
        r = ["alice".toList].getD (np_argmin [mkRat 9 10]) unknownName) ∧
      (∀ j < [mkRat 9 10].length,
        [mkRat 9 10].getD (np_argmin [mkRat 9 10]) 0 ≤ [mkRat 9 10].getD j 0) ∧
      (∀ j < [mkRat 9 10].length,
        [mkRat 9 10].getD j 0 = [mkRat 9 10].getD (np_argmin [mkRat 9 10]) 0 →
        np_argmin [mkRat 9 10] ≤ j) :=
  matcher_threshold_min_first [[mkRat 9 10]] ["alice".toList] [mkRat 9 10]
    (by decide) (by decide) (by decide)

/-- Helper: each face processed in the identification branch appends
exactly its own matched name to `face_names`. -/
lemma processFace_name_one (cfg : SessCfg) (time : Str)
    (acc : List Str × DayStore × List Str × Bool) (f : Box × List ℚ) :
    (processFace cfg time acc f).1
      = acc.1 ++ [matchFace cfg.galEnc cfg.galNames f.2] := by
  unfold processFace matchFace
  dsimp only
  split_ifs <;> simp_all

/-- Helper: the `for face_encoding in face_encodings:` loop produces the
names of the current frame's faces, in order, appended to the
accumulator. -/
lemma processFace_fold_names (cfg : SessCfg) (time : Str)
    (faces : List (Box × List ℚ)) :
    ∀ acc, (faces.foldl (processFace cfg time) acc).1
      = acc.1 ++ faces.map (fun f => matchFace cfg.galEnc cfg.galNames f.2) := by
  induction faces with
  | nil => intro acc; simp
  | cons f fs ih =>
    intro acc
    rw [List.foldl_cons, ih, processFace_name_one]
    simp

/-- C6 counterexample: with an empty gallery, after the liveness
challenge the 9th emitted frame draws the box detected in the 9th camera
frame and the 10th emitted frame draws the different box detected in the
10th camera frame — the frame that follows a recomputation frame does
not reuse the previous boxes, so there is no every-5th-frame
decimation. -/
theorem identify_claim_counterexample :
    (runCex.2.getD 8 ⟨[], [], 0⟩).locs = [((1 : ℤ), 2, 3, 4)] ∧
    (runCex.2.getD 9 ⟨[], [], 0⟩).locs = [((5 : ℤ), 6, 7, 8)] ∧
    [((5 : ℤ), 6, 7, 8)] ≠ [((1 : ℤ), 2, 3, 4)] := by
  decide

/-- C6 amended: in the IDENTIFYING state every pulled frame triggers
landmark extraction and identity matching — each emitted frame's boxes
are exactly the current frame's detections and its labels the current
frame's match results; nothing is reused from an earlier frame. -/
theorem identify_recompute_every_frame (cfg : SessCfg) (st : SessState)
    (inp : FrameInput) (hp : st.challenge_passed = true)
    (hnf : (st.recognition_done && st.last.isSome) = false) :
    (sessStep cfg st inp).2.locs = inp.faces.map Prod.fst ∧
    (sessStep cfg st inp).2.names
      = inp.faces.map (fun f => matchFace cfg.galEnc cfg.galNames f.2) := by
  unfold sessStep
  rw [hnf, hp]
  dsimp only
  rw [processFace_fold_names]
  simp

/-- C6 amended witness: recomputation on a concrete identifying state
and frame. -/
theorem identify_recompute_every_frame_witness :
    ((sessStep ⟨"fac".toList, "Math".toList, [], [], []⟩
        ⟨true, false, 2, 0, [], emptyStore, none⟩
        ⟨none, [((1, 2, 3, 4), [mkRat 1 2])], []⟩).2.locs
      = ([(((1 : ℤ), 2, 3, 4), [mkRat 1 2])] : List (Box × List ℚ)).map Prod.fst) ∧
    ((sessStep ⟨"fac".toList, "Math".toList, [], [], []⟩
        ⟨true, false, 2, 0, [], emptyStore, none⟩
        ⟨none, [((1, 2, 3, 4), [mkRat 1 2])], []⟩).2.names
      = ([(((1 : ℤ), 2, 3, 4), [mkRat 1 2])] : List (Box × List ℚ)).map
          (fun f => matchFace [] [] f.2)) :=
  identify_recompute_every_frame _ _ _ rfl rfl

/-- Helper: every name of the gallery produced by
`remove_user_encoding u` differs from `u`. -/
lemma remove_not_mem (u : Str) (g : Gallery) :
    u ∉ (remove_user_encoding u g).names := by
  unfold remove_user_encoding
  dsimp only
  split
  · intro hu
    simp only [List.mem_map] at hu
    obtain ⟨p, hp, hpu⟩ := hu
    have := List.of_mem_filter hp
    simp [hpu] at this
  · intro hu
    rename_i hlen
    push_neg at hlen
    have hle : ((g.names.zip g.encodings).filter (fun p => !(p.1 == u))).length
        ≤ (g.names.zip g.encodings).length := List.length_filter_le _ _
    have hziple : (g.names.zip g.encodings).length ≤ g.names.length := by
      simp [List.length_zip]
    have hzipeq : (g.names.zip g.encodings).length = g.names.length := by omega
    have hfilter : ((g.names.zip g.encodings).filter (fun p => !(p.1 == u))).length
        = (g.names.zip g.encodings).length := by omega
    have hall := List.filter_length_eq_length.mp hfilter
    have hmemzip : u ∈ (g.names.zip g.encodings).map Prod.fst := by
      rw [List.map_fst_zip]
      · exact hu
      · have : (g.names.zip g.encodings).length
            = min g.names.length g.encodings.length :=
          List.length_zip g.names g.encodings
        omega
    simp only [List.mem_map] at hmemzip
    obtain ⟨p, hp, hpu⟩ := hmemzip
    have := hall p hp
    simp [hpu] at this

/-- Helper: on an aligned gallery, removing an absent name changes
nothing. -/
lemma remove_absent (u : Str) (g : Gallery)
    (hlen : g.names.length = g.encodings.length) (hu : u ∉ g.names) :
    remove_user_encoding u g = g := by
  unfold remove_user_encoding
  dsimp only
  have hall : ∀ p ∈ g.names.zip g.encodings, (fun p => !(p.1 == u)) p = true := by
    intro p hp
    have := (List.of_mem_zip hp).1
    have hne : p.1 ≠ u := fun h => hu (h ▸ this)
    simpa using hne
  rw [List.filter_eq_self.mpr hall]
  have : (g.names.zip g.encodings).length = g.names.length := by
    simp [List.length_zip, hlen]
  rw [this]
  simp

/-- Helper: `remove_user_encoding` is idempotent. -/
lemma remove_idem (u : Str) (g : Gallery) :
    remove_user_encoding u (remove_user_encoding u g)
      = remove_user_encoding u g := by
  by_cases hc : ((g.names.zip g.encodings).filter (fun p => !(p.1 == u))).length
      < g.names.length
  · have hres : remove_user_encoding u g
        = { names := ((g.names.zip g.encodings).filter (fun p => !(p.1 == u))).map Prod.fst,
            encodings := ((g.names.zip g.encodings).filter (fun p => !(p.1 == u))).map Prod.snd } := by
      unfold remove_user_encoding
      dsimp only
      rw [if_pos hc]
    rw [hres]
    apply remove_absent
    · simp
    · have := remove_not_mem u g
      rwa [hres] at this
  · have hres : remove_user_encoding u g = g := by
      unfold remove_user_encoding
      dsimp only
      rw [if_neg hc]
    rw [hres, hres]

/-- Helper: filtering an aligned zip for a name absent from the first
list yields nothing. -/
lemma zip_filter_absent (u : Str) (a : List Str) (b : List Enc) (hu : u ∉ a) :
    (a.zip b).filter (fun p => p.1 == u) = [] := by
  rw [List.filter_eq_nil_iff]
  intro p hp
  have := (List.of_mem_zip hp).1
  have hne : p.1 ≠ u := fun h => hu (h ▸ this)
  simpa using hne

/-- C8: removing an identity leaves no entry with that name, is
idempotent, is a no-op on an identity absent from an aligned gallery,
and after removing an identity and adding it back with a fresh
encoding, the only entry carrying that name is the new one. -/
theorem gallery_remove_add_spec (g : Gallery) (u : Str) (e : Enc)
    (hlen : g.names.length = g.encodings.length) :
    u ∉ (remove_user_encoding u g).names ∧
    remove_user_encoding u (remove_user_encoding u g)
      = remove_user_encoding u g ∧
    (u ∉ g.names → remove_user_encoding u g = g) ∧
    ((add_user_encoding u (some e) (remove_user_encoding u g)).names.zip
        (add_user_encoding u (some e) (remove_user_encoding u g)).encodings).filter
      (fun p => p.1 == u) = [(u, e)] := by
  refine ⟨remove_not_mem u g, remove_idem u g, remove_absent u g hlen, ?_⟩
  have hlen' := remove_preserves_len u g hlen
  have hmem := remove_not_mem u g
  set g' := remove_user_encoding u g with hg'
  show ((g'.names ++ [u]).zip (g'.encodings ++ [e])).filter (fun p => p.1 == u)
      = [(u, e)]
  rw [List.zip_append hlen', List.filter_append, zip_filter_absent u _ _ hmem]
  simp

/-- C8 witness: the remove/add theorem applied to a concrete gallery
holding two encodings for "bob" and one for "alice". -/
theorem gallery_remove_add_spec_witness :
    "bob".toList ∉ (remove_user_encoding "bob".toList
      ⟨[[mkRat 1 2], [mkRat 1 3], [mkRat 1 5]],
       ["bob".toList, "alice".toList, "bob".toList]⟩).names ∧
    remove_user_encoding "bob".toList (remove_user_encoding "bob".toList
      ⟨[[mkRat 1 2], [mkRat 1 3], [mkRat 1 5]],
       ["bob".toList, "alice".toList, "bob".toList]⟩)
      = remove_user_encoding "bob".toList
      ⟨[[mkRat 1 2], [mkRat 1 3], [mkRat 1 5]],
       ["bob".toList, "alice".toList, "bob".toList]⟩ ∧
    ("bob".toList ∉ (⟨[[mkRat 1 2], [mkRat 1 3], [mkRat 1 5]],
       ["bob".toList, "alice".toList, "bob".toList]⟩ : Gallery).names →
      remove_user_encoding "bob".toList
        ⟨[[mkRat 1 2], [mkRat 1 3], [mkRat 1 5]],
         ["bob".toList, "alice".toList, "bob".toList]⟩
        = ⟨[[mkRat 1 2], [mkRat 1 3], [mkRat 1 5]],
           ["bob".toList, "alice".toList, "bob".toList]⟩) ∧
    ((add_user_encoding "bob".toList (some [mkRat 1 7])
        (remove_user_encoding "bob".toList
          ⟨[[mkRat 1 2], [mkRat 1 3], [mkRat 1 5]],
           ["bob".toList, "alice".toList, "bob".toList]⟩)).names.zip
      (add_user_encoding "bob".toList (some [mkRat 1 7])
        (remove_user_encoding "bob".toList
          ⟨[[mkRat 1 2], [mkRat 1 3], [mkRat 1 5]],
           ["bob".toList, "alice".toList, "bob".toList]⟩)).encodings).filter
      (fun p => p.1 == "bob".toList) = [("bob".toList, [mkRat 1 7])] :=
  gallery_remove_add_spec
    ⟨[[mkRat 1 2], [mkRat 1 3], [mkRat 1 5]],
     ["bob".toList, "alice".toList, "bob".toList]⟩
    "bob".toList [mkRat 1 7] rfl

/-- Helper: `splitComma` never returns an empty list of parts. -/
lemma splitComma_ne_nil (l : Str) : splitComma l ≠ [] := by
  cases l with
  | nil => simp [splitComma]
  | cons c rest =>
    unfold splitComma
    dsimp only
    split
    · simp
    · split <;> simp

/-- Helper: unfolding `splitComma` at a leading comma. -/
lemma splitComma_cons_comma (rest : Str) :
    splitComma (',' :: rest) = [] :: splitComma rest := rfl

/-- Helper: unfolding `splitComma` at a leading non-comma character. -/
lemma splitComma_cons_ne (c : Char) (rest : Str) (hc : ¬ c = ',')
    (p : Str) (ps : List Str) (h : splitComma rest = p :: ps) :
    splitComma (c :: rest) = (c :: p) :: ps := by
  unfold splitComma
  dsimp only
  rw [if_neg hc, h]

/-- Helper: splitting distributes over a comma join. -/
lemma splitComma_append (a b : Str) :
    splitComma (a ++ ',' :: b) = splitComma a ++ splitComma b := by
  induction a with
  | nil => rfl
  | cons c a' ih =>
    by_cases hc : c = ','
    · subst hc
      rw [List.cons_append, splitComma_cons_comma, splitComma_cons_comma, ih,
        List.cons_append]
    · rcases h : splitComma a' with _ | ⟨p, ps⟩
      · exact absurd h (splitComma_ne_nil a')
      · have h2 : splitComma (a' ++ ',' :: b) = p :: (ps ++ splitComma b) := by
          rw [ih, h]
          rfl
        rw [List.cons_append, splitComma_cons_ne c _ hc _ _ h2,
          splitComma_cons_ne c a' hc p ps h]
        rfl

/-- Helper: a comma-free string is one whole part. -/
lemma splitComma_no_comma (l : Str) (h : ',' ∉ l) : splitComma l = [l] := by
  induction l with
  | nil => simp [splitComma]
  | cons c rest ih =>
    have hc : ¬ c = ',' := fun hv => h (by simp [hv])
    unfold splitComma
    dsimp only
    rw [if_neg hc, ih (fun hm => h (by simp [hm]))]

/-- Helper: the head of a comma join is the head of its first field. -/
lemma headD_append_comma (a b : Str) (d : Char) :
    (a ++ ',' :: b).headD d = a.headD ',' := by
  cases a <;> simp

/-- Helper: the last element of a comma join is the last element of its
final field. -/
lemma getLastD_append_comma (a b : Str) : ∀ d : Char,
    (a ++ ',' :: b).getLastD d = b.getLastD ',' := by
  induction a with
  | nil => intro d; rw [List.nil_append, List.getLastD_cons]
  | cons x a' ih =>
    intro d
    rw [List.cons_append, List.getLastD_cons]
    exact ih x

/-- Helper: `dropWhile` is the identity when the head fails the
predicate (taking the default into account for the empty list). -/
lemma dropWhile_eq_self_of_headD (p : Char → Bool) (l : Str)
    (h : ¬ p (l.headD ',') ) : l.dropWhile p = l := by
  cases l with
  | nil => simp
  | cons x xs =>
    simp only [List.headD_cons] at h
    simp [List.dropWhile_cons, h]

/-- Helper: `strip()` is the identity on a line with non-whitespace
first and last characters. -/
lemma pyStrip_eq_self (l : Str) (h1 : ¬ pyWs (l.headD ','))
    (h2 : ¬ pyWs (l.getLastD ',')) : pyStrip l = l := by
  unfold pyStrip
  rw [dropWhile_eq_self_of_headD pyWs l h1]
  have hrev : l.reverse.headD ',' = l.getLastD ',' := by
    rw [List.headD_eq_head?_getD, List.head?_reverse, List.getLastD_eq_getLast?]
  rw [dropWhile_eq_self_of_headD pyWs l.reverse (by rw [hrev]; exact h2)]
  exact List.reverse_reverse l

/-- Helper: the record line of a well-formed call is read back by
`strip().split(',')` as exactly its four fields. -/
lemma splitComma_recordLine (c : Call) (hc : GoodCall c) :
    splitComma (pyStrip (recordLine c.name c.time c.fac c.subj))
      = [c.name, c.time, c.fac, c.subj] := by
  obtain ⟨hn, ht, hf, hs, hh, hl⟩ := hc
  have hstrip : pyStrip (recordLine c.name c.time c.fac c.subj)
      = recordLine c.name c.time c.fac c.subj := by
    apply pyStrip_eq_self
    · rw [recordLine, headD_append_comma]
      exact hh
    · rw [recordLine, getLastD_append_comma, getLastD_append_comma,
        getLastD_append_comma]
      exact hl
  rw [hstrip, recordLine, splitComma_append, splitComma_append,
    splitComma_append, splitComma_no_comma c.name hn.1,
    splitComma_no_comma c.time ht.1, splitComma_no_comma c.fac hf.1,
    splitComma_no_comma c.subj hs.1]
  rfl

/-- Helper: the duplicate scan on a well-formed record line tests
exactly name and subject equality. -/
lemma lineMatches_recordLine (c : Call) (hc : GoodCall c) (n s : Str) :
    lineMatches n s (recordLine c.name c.time c.fac c.subj)
      = (c.name == n && c.subj == s) := by
  unfold lineMatches
  dsimp only
  rw [splitComma_recordLine c hc]
  rfl

/-- Helper: the header line passes the duplicate scan exactly for the
degenerate pair ("Name", "Subject"). -/
lemma lineMatches_header (n s : Str) :
    lineMatches n s headerLine = ("Name".toList == n && "Subject".toList == s) := by
  have h : splitComma (pyStrip headerLine)
      = ["Name".toList, "Timestamp".toList, "Taken By".toList, "Subject".toList] := by
    decide
  unfold lineMatches
  dsimp only
  rw [h]
  rfl

/-- Helper: the duplicate scan taken by `mark_attendance` hits exactly
when the store already contains a matching line (on reachable stores:
a non-existing file has no lines). -/
lemma scan_hit_iff (n s : Str) (st : DayStore) (hInv : InvStore st) :
    (st.fileExists && st.lines.any (lineMatches n s)) = true
      ↔ 0 < countMatches n s st := by
  constructor
  · intro h
    rw [Bool.and_eq_true, List.any_eq_true] at h
    obtain ⟨-, l, hl, hm⟩ := h
    have hmem : l ∈ st.lines.filter (lineMatches n s) :=
      List.mem_filter.mpr ⟨hl, hm⟩
    have := List.length_pos.mpr (List.ne_nil_of_mem hmem)
    simpa [countMatches] using this
  · intro h
    rw [Bool.and_eq_true, List.any_eq_true]
    constructor
    · cases hfe : st.fileExists with
      | true => rfl
      | false =>
        exfalso
        have hnil := hInv.1 hfe
        rw [countMatches, hnil] at h
        simp at h
    · rw [countMatches] at h
      have : st.lines.filter (lineMatches n s) ≠ [] := by
        intro hnil
        rw [hnil] at h
        simp at h
      obtain ⟨l, hl⟩ := List.exists_mem_of_ne_nil _ this
      exact ⟨l, (List.mem_filter.mp hl).1, (List.mem_filter.mp hl).2⟩

/-- Helper: a non-degenerate pair never matches the header line. -/
lemma lineMatches_header_false (n s : Str)
    (hn : ¬ (n = "Name".toList ∧ s = "Subject".toList)) :
    lineMatches n s headerLine = false := by
  rw [lineMatches_header]
  cases h1 : ("Name".toList == n) with
  | false => simp
  | true =>
    cases h2 : ("Subject".toList == s) with
    | false => simp
    | true =>
      exfalso
      exact hn ⟨(beq_iff_eq.mp h1).symm, (beq_iff_eq.mp h2).symm⟩

/-- Helper: writing the header when due does not change the number of
matching lines for a non-degenerate pair. -/
lemma base_filter (n s : Str)
    (hn : ¬ (n = "Name".toList ∧ s = "Subject".toList)) (st : DayStore) :
    ((if !st.fileExists || st.lines == [] then st.lines ++ [headerLine]
        else st.lines).filter (lineMatches n s)).length
      = countMatches n s st := by
  rw [countMatches]
  split
  · rw [List.filter_append]
    simp [lineMatches_header_false n s hn]
  · rfl

/-- Helper: the pre-append line list consists of the old lines plus
possibly the header. -/
lemma mem_base {st : DayStore} {l : Str}
    (h : l ∈ (if !st.fileExists || st.lines == [] then st.lines ++ [headerLine]
        else st.lines)) :
    l ∈ st.lines ∨ l = headerLine := by
  split at h
  · rcases List.mem_append.mp h with h | h
    · exact Or.inl h
    · simp only [List.mem_singleton] at h
      exact Or.inr h
  · exact Or.inl h

/-- Helper: one well-formed `mark_attendance` call keeps the store
reachable. -/
lemma mark_inv (c : Call) (hc : GoodCall c) (st : DayStore)
    (hInv : InvStore st) :
    InvStore (mark_attendance c.name c.time c.fac c.subj st).2 := by
  unfold mark_attendance
  dsimp only
  split
  · exact hInv
  · refine ⟨by simp, ?_⟩
    intro l hl
    rcases List.mem_append.mp hl with hbase | hrec
    · rcases mem_base hbase with h | h
      · exact hInv.2 l h
      · exact Or.inl h
    · simp only [List.mem_singleton] at hrec
      exact Or.inr ⟨c, hc, hrec⟩

/-- Helper: a call for a not-yet-marked pair appends and reports
Recorded, leaving exactly one matching line. -/
lemma mark_pair_new (c : Call) (hc : GoodCall c)
    (hn : ¬ (c.name = "Name".toList ∧ c.subj = "Subject".toList))
    (st : DayStore) (hInv : InvStore st)
    (hcnt : countMatches c.name c.subj st = 0) :
    (mark_attendance c.name c.time c.fac c.subj st).1 = true ∧
    countMatches c.name c.subj (mark_attendance c.name c.time c.fac c.subj st).2
      = 1 := by
  have hiff := scan_hit_iff c.name c.subj st hInv
  have hscan : (st.fileExists && st.lines.any (lineMatches c.name c.subj)) = false := by
    cases h : (st.fileExists && st.lines.any (lineMatches c.name c.subj)) with
    | false => rfl
    | true => exact absurd (hiff.mp h) (by omega)
  unfold mark_attendance
  rw [hscan, if_neg Bool.false_ne_true]
  refine ⟨rfl, ?_⟩
  rw [countMatches]
  dsimp only
  rw [List.filter_append, List.length_append, base_filter c.name c.subj hn st,
    hcnt]
  have hrec : lineMatches c.name c.subj (recordLine c.name c.time c.fac c.subj)
      = true := by
    rw [lineMatches_recordLine c hc]
    simp
  simp [hrec]

/-- Helper: a call for an already-marked pair reports AlreadyRecorded
and leaves the store untouched. -/
lemma mark_pair_dup (c : Call) (st : DayStore) (hInv : InvStore st)
    (hcnt : 0 < countMatches c.name c.subj st) :
    (mark_attendance c.name c.time c.fac c.subj st).1 = false ∧
    (mark_attendance c.name c.time c.fac c.subj st).2 = st := by
  have hscan := (scan_hit_iff c.name c.subj st hInv).mpr hcnt
  unfold mark_attendance
  rw [hscan, if_pos rfl]
  exact ⟨rfl, rfl⟩

/-- Helper: a well-formed call for a different pair never changes the
number of lines matching a non-degenerate pair. -/
lemma mark_nonpair (c : Call) (hc : GoodCall c) (n s : Str)
    (hn : ¬ (n = "Name".toList ∧ s = "Subject".toList))
    (hnp : ¬ (c.name = n ∧ c.subj = s)) (st : DayStore) :
    countMatches n s (mark_attendance c.name c.time c.fac c.subj st).2
      = countMatches n s st := by
  unfold mark_attendance
  dsimp only
  split
  · rfl
  · rw [countMatches]
    dsimp only
    rw [List.filter_append, List.length_append, base_filter n s hn st]
    have hrec : lineMatches n s (recordLine c.name c.time c.fac c.subj)
        = false := by
      rw [lineMatches_recordLine c hc]
      cases h1 : (c.name == n) with
      | false => simp
      | true =>
        cases h2 : (c.subj == s) with
        | false => simp
        | true =>
          exfalso
          exact hnp ⟨beq_iff_eq.mp h1, beq_iff_eq.mp h2⟩
    simp [countMatches, hrec]

/-- Helper: unfolding `pairTrueCount` over one call and its result. -/
lemma pairTrueCount_cons (c : Call) (cs : List Call) (r : Bool)
    (rs : List Bool) (n s : Str) :
    pairTrueCount (c :: cs) (r :: rs) n s
      = (if ((c.name == n && c.subj == s) && r) = true then 1 else 0)
        + pairTrueCount cs rs n s := by
  unfold pairTrueCount
  cases hp : (c.name == n && c.subj == s) <;> cases r <;>
    simp [List.zip_cons_cons, List.filter_cons, hp] <;> omega

/-- Helper: unfolding `hasPairCall` over one call. -/
lemma hasPairCall_cons (c : Call) (cs : List Call) (n s : Str) :
    hasPairCall (c :: cs) n s
      = ((c.name == n && c.subj == s) || hasPairCall cs n s) := by
  simp [hasPairCall, List.any_cons]

/-- Helper: the exactly-once invariant of a run of well-formed
`mark_attendance` calls: the final store stays reachable, the matching
count for a tracked non-degenerate pair ends at its capped maximum, and
the number of Recorded results for that pair is exactly the growth of
the matching count. -/
lemma runMark_spec (n s : Str)
    (hn : ¬ (n = "Name".toList ∧ s = "Subject".toList)) :
    ∀ (calls : List Call) (st : DayStore), (∀ c ∈ calls, GoodCall c) →
      InvStore st → countMatches n s st ≤ 1 →
      InvStore (runMark calls st).1 ∧
      countMatches n s (runMark calls st).1
        = max (countMatches n s st) (if hasPairCall calls n s then 1 else 0) ∧
      pairTrueCount calls (runMark calls st).2 n s
        = countMatches n s (runMark calls st).1 - countMatches n s st := by
  intro calls
  induction calls with
  | nil =>
    intro st hg hInv hle
    refine ⟨hInv, ?_, ?_⟩
    · simp [runMark, hasPairCall]
    · simp [runMark, pairTrueCount]
  | cons c cs ih =>
    intro st hg hInv hle
    have hcg : GoodCall c := hg c (by simp)
    have hcsg : ∀ x ∈ cs, GoodCall x := fun x hx => hg x (by simp [hx])
    simp only [runMark]
    by_cases hpair : c.name = n ∧ c.subj = s
    · obtain ⟨hp1, hp2⟩ := hpair
      subst hp1
      subst hp2
      have hbeq : (c.name == c.name && c.subj == c.subj) = true := by simp
      by_cases hcnt : countMatches c.name c.subj st = 0
      · obtain ⟨hr, hc2⟩ := mark_pair_new c hcg hn st hInv hcnt
        have hInv2 := mark_inv c hcg st hInv
        obtain ⟨hI, hC, hP⟩ :=
          ih (mark_attendance c.name c.time c.fac c.subj st).2 hcsg hInv2 (by omega)
        refine ⟨hI, ?_, ?_⟩
        · rw [hC, hc2, hcnt, hasPairCall_cons, hbeq]
          cases hasPairCall cs c.name c.subj <;> simp
        · rw [pairTrueCount_cons, hbeq, hr, hP, hC, hc2, hcnt]
          cases hasPairCall cs c.name c.subj <;> simp
      · have hcnt' : 0 < countMatches c.name c.subj st := by omega
        have hcnt1 : countMatches c.name c.subj st = 1 := by omega
        obtain ⟨hr, hst⟩ := mark_pair_dup c st hInv hcnt'
        rw [hst]
        obtain ⟨hI, hC, hP⟩ := ih st hcsg hInv hle
        refine ⟨hI, ?_, ?_⟩
        · rw [hC, hcnt1, hasPairCall_cons, hbeq]
          cases hasPairCall cs c.name c.subj <;> simp
        · rw [pairTrueCount_cons, hbeq, hr, hP, hC, hcnt1]
          cases hasPairCall cs c.name c.subj <;> simp
    · have hbeq : (c.name == n && c.subj == s) = false := by
        cases h1 : (c.name == n) with
        | false => simp
        | true =>
          cases h2 : (c.subj == s) with
          | false => simp
          | true =>
            exfalso
            exact hpair ⟨beq_iff_eq.mp h1, beq_iff_eq.mp h2⟩
      have hcnm := mark_nonpair c hcg n s hn hpair st
      have hInv2 := mark_inv c hcg st hInv
      obtain ⟨hI, hC, hP⟩ :=
        ih (mark_attendance c.name c.time c.fac c.subj st).2 hcsg hInv2 (by omega)
      refine ⟨hI, ?_, ?_⟩
      · rw [hC, hcnm, hasPairCall_cons, hbeq]
        simp
      · rw [pairTrueCount_cons, hbeq, hP, hcnm]
        simp

/-- C1 amended: for any sequence of `mark_attendance` calls on one
day's store — started empty — whose fields are comma/newline-free and
survive `strip()` unchanged, and whose tracked (identity, subject) pair
is not the degenerate header pair ("Name", "Subject"): exactly one of
the calls carrying that pair returns Recorded (True), every other such
call returns AlreadyRecorded (False), and the day's store never holds
two records of that pair — regardless of recorder or timestamp. -/
theorem attendance_exactly_once (calls : List Call) (n s : Str)
    (hg : ∀ c ∈ calls, GoodCall c)
    (hn : ¬ (n = "Name".toList ∧ s = "Subject".toList))
    (hocc : hasPairCall calls n s = true) :
    pairTrueCount calls (runMark calls emptyStore).2 n s = 1 ∧
    countMatches n s (runMark calls emptyStore).1 ≤ 1 := by
  have hInv : InvStore emptyStore := ⟨fun _ => rfl, by simp [emptyStore]⟩
  have h0 : countMatches n s emptyStore = 0 := rfl
  obtain ⟨hI, hC, hP⟩ := runMark_spec n s hn calls emptyStore hg hInv (by omega)
  rw [hocc] at hC
  simp only [if_true, h0, Nat.zero_max] at hC
  constructor
  · rw [hP, hC, h0]
  · omega

/-- C1 witness: scenario B — the same ("Alice", "Math") pair submitted
twice on the same day (different times, same recorder): the run records
exactly once and the store holds at most one matching line. -/
theorem attendance_exactly_once_witness :
    pairTrueCount
      [⟨"Alice".toList, "10:00:00 AM".toList, "Bob".toList, "Math".toList⟩,
       ⟨"Alice".toList, "10:05:00 AM".toList, "Bob".toList, "Math".toList⟩]
      (runMark
        [⟨"Alice".toList, "10:00:00 AM".toList, "Bob".toList, "Math".toList⟩,
         ⟨"Alice".toList, "10:05:00 AM".toList, "Bob".toList, "Math".toList⟩]
        emptyStore).2 "Alice".toList "Math".toList = 1 ∧
    countMatches "Alice".toList "Math".toList
      (runMark
        [⟨"Alice".toList, "10:00:00 AM".toList, "Bob".toList, "Math".toList⟩,
         ⟨"Alice".toList, "10:05:00 AM".toList, "Bob".toList, "Math".toList⟩]
        emptyStore).1 ≤ 1 :=
  attendance_exactly_once _ "Alice".toList "Math".toList
    (by decide) (by decide) (by decide)

/-- C1 counterexample: an identity name containing a comma defeats the
duplicate scan (its written line splits into five parts), so BOTH calls
for the same ("a,b", "S") pair on the same day return Recorded — the
claim's exactly-once guarantee fails as stated for arbitrary
identities. -/
theorem attendance_claim_counterexample :
    (runMark
      [⟨"a,b".toList, "t1".toList, "f".toList, "S".toList⟩,
       ⟨"a,b".toList, "t2".toList, "f".toList, "S".toList⟩]
      emptyStore).2 = [true, true] ∧
    pairTrueCount
      [⟨"a,b".toList, "t1".toList, "f".toList, "S".toList⟩,
       ⟨"a,b".toList, "t2".toList, "f".toList, "S".toList⟩]
      (runMark
        [⟨"a,b".toList, "t1".toList, "f".toList, "S".toList⟩,
         ⟨"a,b".toList, "t2".toList, "f".toList, "S".toList⟩]
        emptyStore).2 "a,b".toList "S".toList = 2 := by
  decide

end FaceAttend
